import Mathlib

/-!
Verification of the stats-aggregation / leaderboard-reconciliation engine of
the `root` repository, together with its member/attendance GraphQL mutations.

The stored tables are embedded as Lean lists of rows whose fields follow the
SQL schemas created by `tests/integration_tests.rs` (`member`, `leaderboard`,
`leetcode_stats`, `codeforces_stats`).  SQL `INT` columns become `Int`,
nullable columns become `Option`.  The reconciliation engine itself
(`fetch_leetcode_stats`, `fetch_codeforces_stats`, `update_leaderboard`,
`score_of`, `combine`) is declared and called by the repository but its body
is not part of the available sources, so those definitions are modelled from
the specification (each such definition says so in its doc comment).  The
GraphQL mutations `add_member` and `add_attendance` are embedded directly
from `src/graphql/mutations.rs`.
-/

namespace Root

/-! ## Generic keyed-table primitives

A SQL table with a `UNIQUE` key column is a list of rows; `findBy` is a point
lookup (`SELECT ... WHERE key = k`, first match) and `upsertBy` is
`INSERT ... ON CONFLICT (key) DO UPDATE` under the storage layer's uniqueness
constraint: the first row with the same key is overwritten in place,
otherwise the row is appended. -/

def findBy {α : Type} (key : α → Int) (k : Int) : List α → Option α
  | [] => none
  | r :: rs => if key r = k then some r else findBy key k rs

def upsertBy {α : Type} (key : α → Int) (row : α) : List α → List α
  | [] => [row]
  | r :: rs => if key r = key row then row :: rs else r :: upsertBy key row rs

/-! ## Stored row shapes (schemas from `tests/integration_tests.rs`) -/

/-- Row of the `leetcode_stats` table (the `id SERIAL` surrogate column is
omitted; `member_id INT UNIQUE NOT NULL` is the logical key). -/
structure LeetCodeStats where
  member_id : Int
  leetcode_username : String
  problems_solved : Int
  easy_solved : Int
  medium_solved : Int
  hard_solved : Int
  contests_participated : Int
  best_rank : Int
  total_contests : Int
deriving DecidableEq

/-- Row of the `codeforces_stats` table (`id SERIAL` omitted;
`member_id INT UNIQUE NOT NULL` is the logical key). -/
structure CodeforcesStats where
  member_id : Int
  codeforces_handle : String
  codeforces_rating : Int
  max_rating : Int
  contests_participated : Int
deriving DecidableEq

/-- Row of the `leaderboard` table (`id SERIAL` omitted; `member_id INT
UNIQUE NOT NULL` is the logical key, `leetcode_score`/`codeforces_score` are
nullable, `unified_score INT NOT NULL`, `last_updated TIMESTAMP DEFAULT
CURRENT_TIMESTAMP` modelled as an integer timestamp). -/
structure Leaderboard where
  member_id : Int
  leetcode_score : Option Int
  codeforces_score : Option Int
  unified_score : Int
  last_updated : Int
deriving DecidableEq

/-- The durable store seen by the reconciliation engine: the three tables it
writes.  (The `member` table is read-only for the engine and enters only
through the roster, below.) -/
structure DB where
  leetcode_stats : List LeetCodeStats
  codeforces_stats : List CodeforcesStats
  leaderboard : List Leaderboard
deriving DecidableEq

/-- A roster entry: a member identity together with the member's per-source
handles, as supplied by the member directory (`member.id`,
the LeetCode username and the Codeforces handle from the test fixtures). -/
structure RosterMember where
  id : Int
  leetcode_username : String
  codeforces_handle : String
deriving DecidableEq

/-! ## Fetched payloads

`Modelled from the spec:` the fetch primitive of §4.1 returns the external
source's current raw statistics for a handle, or fails; the payload carries
every non-key column of the corresponding stats table. -/

/-- Raw LeetCode statistics as returned by a successful fetch. -/
structure LeetCodeData where
  leetcode_username : String
  problems_solved : Int
  easy_solved : Int
  medium_solved : Int
  hard_solved : Int
  contests_participated : Int
  best_rank : Int
  total_contests : Int
deriving DecidableEq

/-- Raw Codeforces statistics as returned by a successful fetch. -/
structure CodeforcesData where
  codeforces_handle : String
  codeforces_rating : Int
  max_rating : Int
  contests_participated : Int
deriving DecidableEq

/-- Attach the owning member identity to a fetched LeetCode payload,
producing the stored row shape. -/
def mkLeetCodeRow (mid : Int) (d : LeetCodeData) : LeetCodeStats :=
  ⟨mid, d.leetcode_username, d.problems_solved, d.easy_solved, d.medium_solved,
   d.hard_solved, d.contests_participated, d.best_rank, d.total_contests⟩

/-- Attach the owning member identity to a fetched Codeforces payload. -/
def mkCodeforcesRow (mid : Int) (d : CodeforcesData) : CodeforcesStats :=
  ⟨mid, d.codeforces_handle, d.codeforces_rating, d.max_rating,
   d.contests_participated⟩

/-! ## Fetchers -/

/-- Modelled from the spec: `fetch_leetcode_stats` is called by the
integration test but its body is not in the available sources.  Per §4.1 the
fetcher maps the upstream response into a payload or a fetch failure
(`none`) and is read-only on durable storage, so it threads the store
through unchanged.  The upstream judge is abstracted as a function
`upstream : member identity → handle → Option payload`. -/
def fetch_leetcode_stats (upstream : Int → String → Option LeetCodeData)
    (db : DB) (mid : Int) (handle : String) : DB × Option LeetCodeData :=
  (db, upstream mid handle)

/-- Modelled from the spec: `fetch_codeforces_stats`, analogously to
`fetch_leetcode_stats` (body not in the available sources; read-only per
§4.1). -/
def fetch_codeforces_stats (upstream : Int → String → Option CodeforcesData)
    (db : DB) (mid : Int) (handle : String) : DB × Option CodeforcesData :=
  (db, upstream mid handle)

/-! ## Scoring -/

/-- Modelled from the spec: `score_of` for LeetCode.  §4.3 requires a pure,
source-specific map from raw counters to a normalized integer score (the
exact weights are an open question of §9; the spec requires only a positive
integer, e.g. a weighted combination of solved counts and contest
participation).  A representative documented choice is used. -/
def score_of_leetcode (r : LeetCodeStats) : Int :=
  max 1 (r.problems_solved + r.easy_solved + 2 * r.medium_solved +
    3 * r.hard_solved + 5 * r.contests_participated)

/-- Modelled from the spec: `score_of` for Codeforces (same open-question
caveat as `score_of_leetcode`). -/
def score_of_codeforces (r : CodeforcesStats) : Int :=
  max 1 (r.codeforces_rating + r.max_rating + r.contests_participated)

/-- Modelled from the spec: `combine` over the currently-available per-source
scores (§4.3): defined for every non-empty subset of sources, monotonic in
each score, order-independent.  An absent source contributes nothing; the
representative choice is the sum of the available scores. -/
def combine (lc cf : Option Int) : Int :=
  lc.getD 0 + cf.getD 0

/-! ## The reconciliation cycle -/

/-- Table state after the LeetCode half of one member's cycle: on fetch
success the fetched profile is upserted (overwritten in place), on failure
the table is untouched (last-known-good snapshot retained). -/
def lcTableAfter (res : Option LeetCodeData) (mid : Int)
    (tbl : List LeetCodeStats) : List LeetCodeStats :=
  match res with
  | some d => upsertBy LeetCodeStats.member_id (mkLeetCodeRow mid d) tbl
  | none => tbl

/-- The LeetCode score available for the member this cycle: the fresh fetch's
score on success, else the score of the stored snapshot if one exists. -/
def lcScoreAfter (res : Option LeetCodeData) (mid : Int)
    (tbl : List LeetCodeStats) : Option Int :=
  match res with
  | some d => some (score_of_leetcode (mkLeetCodeRow mid d))
  | none => (findBy LeetCodeStats.member_id mid tbl).map score_of_leetcode

/-- Codeforces analogue of `lcTableAfter`. -/
def cfTableAfter (res : Option CodeforcesData) (mid : Int)
    (tbl : List CodeforcesStats) : List CodeforcesStats :=
  match res with
  | some d => upsertBy CodeforcesStats.member_id (mkCodeforcesRow mid d) tbl
  | none => tbl

/-- Codeforces analogue of `lcScoreAfter`. -/
def cfScoreAfter (res : Option CodeforcesData) (mid : Int)
    (tbl : List CodeforcesStats) : Option Int :=
  match res with
  | some d => some (score_of_codeforces (mkCodeforcesRow mid d))
  | none => (findBy CodeforcesStats.member_id mid tbl).map score_of_codeforces

/-- Idempotent upsert into the `leaderboard` table keyed by `member_id`.
`last_updated` is populated by the storage default at first insert and is
not part of the conflict-update set, so an in-place overwrite keeps the
existing row's timestamp (per §3/§8: repeated cycles cause no drift in
stored rows). -/
def upsertLeaderboardEntry (now : Int) (mid : Int) (lc cf : Option Int)
    (u : Int) : List Leaderboard → List Leaderboard
  | [] => [⟨mid, lc, cf, u, now⟩]
  | r :: rs =>
    if r.member_id = mid then ⟨mid, lc, cf, u, r.last_updated⟩ :: rs
    else r :: upsertLeaderboardEntry now mid lc cf u rs

/-- Modelled from the spec: one member's reconciliation step, the loop body
of §4.3's pseudocode (the body of `update_leaderboard` is not in the
available sources).  Each source is fetched; a success is persisted and
scored, a failure falls back to the stored snapshot's score when one exists;
if at least one score is available, the unified score is computed and the
leaderboard row is upserted, otherwise no leaderboard row is written or
touched. -/
def reconcileMember (fLC : Int → String → Option LeetCodeData)
    (fCF : Int → String → Option CodeforcesData) (now : Int)
    (m : RosterMember) (db : DB) : DB :=
  let lcRes := (fetch_leetcode_stats fLC db m.id m.leetcode_username).2
  let cfRes := (fetch_codeforces_stats fCF db m.id m.codeforces_handle).2
  let lcS := lcScoreAfter lcRes m.id db.leetcode_stats
  let cfS := cfScoreAfter cfRes m.id db.codeforces_stats
  let db' : DB := ⟨lcTableAfter lcRes m.id db.leetcode_stats,
                   cfTableAfter cfRes m.id db.codeforces_stats,
                   db.leaderboard⟩
  if lcS.isNone && cfS.isNone then db'
  else ⟨db'.leetcode_stats, db'.codeforces_stats,
        upsertLeaderboardEntry now m.id lcS cfS (combine lcS cfS) db.leaderboard⟩

/-- Modelled from the spec: `update_leaderboard` runs one reconciliation
cycle over the full roster (§4.3; the Rust body is not in the available
sources, only its call site in the integration test). -/
def update_leaderboard (fLC : Int → String → Option LeetCodeData)
    (fCF : Int → String → Option CodeforcesData) (now : Int)
    (roster : List RosterMember) (db : DB) : DB :=
  roster.foldl (fun d m => reconcileMember fLC fCF now m d) db

/-- A sequence of reconciliation cycles with unchanged upstream data, one per
timestamp in `nows`. -/
def run_cycles (fLC : Int → String → Option LeetCodeData)
    (fCF : Int → String → Option CodeforcesData)
    (roster : List RosterMember) (nows : List Int) (db : DB) : DB :=
  nows.foldl (fun d t => update_leaderboard fLC fCF t roster d) db

/-- The uniqueness invariant of §3: at most one `leetcode_stats` row and one
`codeforces_stats` row per member, and at most one `leaderboard` row per
member (the `member_id UNIQUE` constraints of the schemas). -/
def DBInv (db : DB) : Prop :=
  (db.leetcode_stats.map LeetCodeStats.member_id).Nodup ∧
  (db.codeforces_stats.map CodeforcesStats.member_id).Nodup ∧
  (db.leaderboard.map Leaderboard.member_id).Nodup

instance (db : DB) : Decidable (DBInv db) := by
  unfold DBInv; infer_instance

/-! ## Member and attendance mutations (`src/graphql/mutations.rs`)

`add_member` and `add_attendance` are GraphQL mutations that look up the
shared connection pool in the request context with
`ctx.data::<Arc<PgPool>>().expect("Pool not found in context")` and then run
a single plain `INSERT ... RETURNING *`. -/

/-- Row of the `member` table from the test schema: `id SERIAL PRIMARY KEY`,
`rollno/name/hostel/email/sex NOT NULL`, `email UNIQUE`, `year INT NOT
NULL`, `macaddress VARCHAR(17) NOT NULL`, `discord_id` nullable, `group_id
INT NOT NULL`.  Nullability is tracked with `Option` so that the NOT NULL
constraints can be checked on insert. -/
structure Member where
  id : Int
  rollno : String
  name : String
  hostel : String
  email : String
  sex : String
  year : Int
  macaddress : Option String
  discord_id : Option String
  group_id : Option Int
deriving DecidableEq

/-- The `member` table: the `SERIAL` sequence counter plus the stored rows. -/
structure MemberTable where
  nextId : Int
  rows : List Member
deriving DecidableEq

/-- Storage-level errors surfaced by an `INSERT`. -/
inductive SqlError where
  | notNullViolation (column : String)
  | uniqueViolation (constraintName : String)
deriving DecidableEq

/-- One `INSERT INTO member (...) VALUES (...) RETURNING *` against the test
schema.  Columns missing from the column list arrive as `none` (no column of
the schema has a non-trivial default).  Postgres rejects a NOT-NULL
violation when the tuple is formed, before unique-index maintenance, so the
NOT NULL checks on `macaddress` and `group_id` precede the `email UNIQUE`
check; on success the row is stored with the storage-assigned serial `id`
and returned.  On error the statement leaves the table unchanged. -/
def insertMemberRow (st : MemberTable) (rollno nm hostel email sex : String)
    (year : Int) (macaddress discord_id : Option String)
    (group_id : Option Int) : MemberTable × Except SqlError Member :=
  if macaddress.isNone then (st, .error (.notNullViolation "macaddress"))
  else if group_id.isNone then (st, .error (.notNullViolation "group_id"))
  else if st.rows.any (fun r => r.email = email) then
    (st, .error (.uniqueViolation "member_email_key"))
  else
    let row : Member := ⟨st.nextId, rollno, nm, hostel, email, sex, year,
                         macaddress, discord_id, group_id⟩
    (⟨st.nextId + 1, st.rows ++ [row]⟩, .ok row)

/-- The insert performed by the `add_member` mutation
(`src/graphql/mutations.rs:25`): `INSERT INTO Member (rollno, name, hostel,
email, sex, year) VALUES ($1,$2,$3,$4,$5,$6) RETURNING *` — exactly six
columns, every other column left to its (absent) default. -/
def add_member_insert (st : MemberTable) (rollno nm hostel email sex : String)
    (year : Int) : MemberTable × Except SqlError Member :=
  insertMemberRow st rollno nm hostel email sex year none none none

/-- Row of the `Attendance` table.  Modelled from the spec: the attendance
schema is not in the available sources; the mutation binds a member id, a
date and two times, so the row is those four columns (dates and times as
integers). -/
structure Attendance where
  id : Int
  date : Int
  timein : Int
  timeout : Int
deriving DecidableEq

/-- The shared `PgPool`: the durable tables reachable from the pool that the
mutations touch. -/
structure PgPool where
  members : MemberTable
  attendance : List Attendance
deriving DecidableEq

/-- The GraphQL request context: `ctx.data::<Arc<PgPool>>()` either finds the
injected pool or fails. -/
structure Context where
  pool : Option PgPool

/-- Outcome of running a mutation handler: the handler either panics (Rust
`expect`) or returns a `Result` together with the pool state it left
behind. -/
inductive MutationOutcome (α : Type) where
  | panicked (msg : String)
  | returned (pool : PgPool) (result : Except SqlError α)

/-- The `add_member` mutation: looks up the pool in the context, panicking
with `Pool not found in context` when it is absent, then performs the
six-column insert. -/
def add_member (ctx : Context) (rollno nm hostel email sex : String)
    (year : Int) : MutationOutcome Member :=
  match ctx.pool with
  | none => .panicked "Pool not found in context"
  | some pool =>
    let (st, res) := add_member_insert pool.members rollno nm hostel email sex year
    .returned ⟨st, pool.attendance⟩ res

/-- The `add_attendance` mutation: looks up the pool in the context,
panicking with `Pool not found in context` when it is absent, then performs
`INSERT INTO Attendance (id, date, timein, timeout) VALUES ($1,$2,$3,$4)
RETURNING *` (a plain insert; no constraint on the attendance table appears
in the available sources). -/
def add_attendance (ctx : Context) (id date timein tmout : Int) :
    MutationOutcome Attendance :=
  match ctx.pool with
  | none => .panicked "Pool not found in context"
  | some pool =>
    let row : Attendance := ⟨id, date, timein, tmout⟩
    .returned ⟨pool.members, pool.attendance ++ [row]⟩ (.ok row)

/-! ## Derived predicates -/

/-- The per-row leaderboard invariant of §3: the unified score is present
(`unified_score INT NOT NULL`), strictly positive, and equals `combine`
applied to the row's available per-source scores. -/
def LeaderboardRowOK (r : Leaderboard) : Prop :=
  0 < r.unified_score ∧
  r.unified_score = combine r.leetcode_score r.codeforces_score

instance (r : Leaderboard) : Decidable (LeaderboardRowOK r) := by
  unfold LeaderboardRowOK; infer_instance

/-- Member `mid` has no data anywhere in the store: no stored snapshot for
either source and no leaderboard row. -/
def NoData (mid : Int) (db : DB) : Prop :=
  findBy LeetCodeStats.member_id mid db.leetcode_stats = none ∧
  findBy CodeforcesStats.member_id mid db.codeforces_stats = none ∧
  findBy Leaderboard.member_id mid db.leaderboard = none

instance (mid : Int) (db : DB) : Decidable (NoData mid db) := by
  unfold NoData; infer_instance

/-! ## Concrete sample data (used by the witness theorems) -/

/-- Sample LeetCode upstream: member 1's handle resolves, everything else
fails. -/
def sampleLC : Int → String → Option LeetCodeData :=
  fun mid _ => if mid = 1 then some ⟨"john", 50, 10, 20, 20, 3, 1000, 5⟩ else none

/-- Sample Codeforces upstream: member 2's handle resolves, everything else
fails. -/
def sampleCF : Int → String → Option CodeforcesData :=
  fun mid _ => if mid = 2 then some ⟨"tourist", 1500, 1600, 7⟩ else none

/-- Sample roster of two members. -/
def sampleRoster : List RosterMember :=
  [⟨1, "john", "jj"⟩, ⟨2, "jane", "tourist"⟩]

/-- The empty store. -/
def emptyDB : DB := ⟨[], [], []⟩

/-- A member table holding one stored member. -/
def sampleMemberTable : MemberTable :=
  ⟨2, [⟨1, "B21CS1234", "John Doe", "Hostel A", "john.doe@example.com", "Male",
        2021, some "00:11:22:33:44:55", some "john_discord", some 1⟩]⟩

/-- A pool wrapping the sample member table. -/
def samplePool : PgPool := ⟨sampleMemberTable, []⟩

/-! ## Lemmas about the keyed-table primitives -/

theorem findBy_key_eq {α : Type} {key : α → Int} {k : Int} {l : List α} {r : α}
    (h : findBy key k l = some r) : key r = k := by
  induction l with
  | nil => simp [findBy] at h
  | cons x xs ih =>
    by_cases hx : key x = k
    · simp [findBy, hx] at h; simpa [← h] using hx
    · simp [findBy, hx] at h; exact ih h

theorem findBy_upsertBy_self {α : Type} (key : α → Int) (row : α) (l : List α) :
    findBy key (key row) (upsertBy key row l) = some row := by
  induction l with
  | nil => simp [findBy, upsertBy]
  | cons x xs ih =>
    by_cases hx : key x = key row
    · simp [upsertBy, hx, findBy]
    · simp [upsertBy, hx, findBy, ih]

theorem findBy_upsertBy_ne {α : Type} {key : α → Int} {k : Int} (row : α)
    (l : List α) (h : k ≠ key row) :
    findBy key k (upsertBy key row l) = findBy key k l := by
  have h' : ¬ (key row = k) := fun hh => h hh.symm
  induction l with
  | nil => simp [findBy, upsertBy, h']
  | cons x xs ih =>
    by_cases hx : key x = key row
    · have hx' : ¬ (key x = k) := by rw [hx]; exact h'
      simp [upsertBy, hx, findBy, h', hx']
    · simp [upsertBy, hx, findBy, ih]

theorem upsertBy_eq_self {α : Type} {key : α → Int} {row : α} {l : List α}
    (h : findBy key (key row) l = some row) : upsertBy key row l = l := by
  induction l with
  | nil => simp [findBy] at h
  | cons x xs ih =>
    by_cases hx : key x = key row
    · simp [findBy, hx] at h
      simp [upsertBy, hx, h]
    · simp [findBy, hx] at h
      simp [upsertBy, hx, ih h]

theorem upsertBy_map_key {α : Type} (key : α → Int) (row : α) (l : List α) :
    (upsertBy key row l).map key =
      if key row ∈ l.map key then l.map key else l.map key ++ [key row] := by
  induction l with
  | nil => simp [upsertBy]
  | cons x xs ih =>
    by_cases hx : key x = key row
    · simp [upsertBy, hx]
    · have hx' : ¬ (key row = key x) := fun hh => hx hh.symm
      simp [upsertBy, hx, ih, hx']
      split <;> rfl

theorem upsertBy_nodup {α : Type} (key : α → Int) (row : α) (l : List α)
    (h : (l.map key).Nodup) : ((upsertBy key row l).map key).Nodup := by
  rw [upsertBy_map_key]
  by_cases hmem : key row ∈ l.map key
  · simpa [hmem] using h
  · simpa [hmem, List.nodup_append] using h

theorem mkLeetCodeRow_member_id (mid : Int) (d : LeetCodeData) :
    (mkLeetCodeRow mid d).member_id = mid := rfl

theorem mkCodeforcesRow_member_id (mid : Int) (d : CodeforcesData) :
    (mkCodeforcesRow mid d).member_id = mid := rfl

/-! ## Lemmas about the leaderboard upsert -/

theorem findBy_upsertLeaderboardEntry_self (now mid : Int) (lc cf : Option Int)
    (u : Int) (l : List Leaderboard) :
    ∃ ts, findBy Leaderboard.member_id mid (upsertLeaderboardEntry now mid lc cf u l)
      = some ⟨mid, lc, cf, u, ts⟩ := by
  induction l with
  | nil => exact ⟨now, by simp [upsertLeaderboardEntry, findBy]⟩
  | cons r rs ih =>
    by_cases hr : r.member_id = mid
    · exact ⟨r.last_updated, by simp [upsertLeaderboardEntry, hr, findBy]⟩
    · obtain ⟨ts, hts⟩ := ih
      exact ⟨ts, by simp [upsertLeaderboardEntry, hr, findBy, hts]⟩

theorem findBy_upsertLeaderboardEntry_ne {k mid : Int} (now : Int)
    (lc cf : Option Int) (u : Int) (l : List Leaderboard) (h : k ≠ mid) :
    findBy Leaderboard.member_id k (upsertLeaderboardEntry now mid lc cf u l)
      = findBy Leaderboard.member_id k l := by
  have h' : ¬ (mid = k) := fun hh => h hh.symm
  induction l with
  | nil => simp [upsertLeaderboardEntry, findBy, h']
  | cons r rs ih =>
    by_cases hr : r.member_id = mid
    · have hr' : ¬ (r.member_id = k) := by rw [hr]; exact h'
      simp [upsertLeaderboardEntry, hr, findBy, h', hr']
    · simp [upsertLeaderboardEntry, hr, findBy, ih]

theorem upsertLeaderboardEntry_eq_self {mid : Int} {lc cf : Option Int}
    {u : Int} (now : Int) {l : List Leaderboard} {r : Leaderboard}
    (hfind : findBy Leaderboard.member_id mid l = some r)
    (h1 : r.leetcode_score = lc) (h2 : r.codeforces_score = cf)
    (h3 : r.unified_score = u) :
    upsertLeaderboardEntry now mid lc cf u l = l := by
  induction l with
  | nil => simp [findBy] at hfind
  | cons x xs ih =>
    by_cases hx : x.member_id = mid
    · simp [findBy, hx] at hfind
      subst hfind
      simp only [upsertLeaderboardEntry, hx, if_pos]
      have : (⟨mid, lc, cf, u, x.last_updated⟩ : Leaderboard) = x := by
        cases x
        simp_all
      rw [this]
    · simp [findBy, hx] at hfind
      simp [upsertLeaderboardEntry, hx, ih hfind]

theorem upsertLeaderboardEntry_map_key (now mid : Int) (lc cf : Option Int)
    (u : Int) (l : List Leaderboard) :
    (upsertLeaderboardEntry now mid lc cf u l).map Leaderboard.member_id =
      if mid ∈ l.map Leaderboard.member_id then l.map Leaderboard.member_id
      else l.map Leaderboard.member_id ++ [mid] := by
  induction l with
  | nil => simp [upsertLeaderboardEntry]
  | cons x xs ih =>
    by_cases hx : x.member_id = mid
    · simp [upsertLeaderboardEntry, hx]
    · have hx' : ¬ (mid = x.member_id) := fun hh => hx hh.symm
      simp [upsertLeaderboardEntry, hx, ih, hx']
      split <;> rfl

theorem upsertLeaderboardEntry_nodup (now mid : Int) (lc cf : Option Int)
    (u : Int) (l : List Leaderboard)
    (h : (l.map Leaderboard.member_id).Nodup) :
    ((upsertLeaderboardEntry now mid lc cf u l).map Leaderboard.member_id).Nodup := by
  rw [upsertLeaderboardEntry_map_key]
  by_cases hmem : mid ∈ l.map Leaderboard.member_id
  · simpa [hmem] using h
  · simpa [hmem, List.nodup_append] using h

theorem upsertLeaderboardEntry_rowOK (now mid : Int) (lc cf : Option Int)
    (u : Int) (l : List Leaderboard)
    (hl : ∀ r ∈ l, LeaderboardRowOK r) (hu : 0 < u) (hc : u = combine lc cf) :
    ∀ r ∈ upsertLeaderboardEntry now mid lc cf u l, LeaderboardRowOK r := by
  induction l with
  | nil =>
    intro r hr
    simp [upsertLeaderboardEntry] at hr
    subst hr
    exact ⟨hu, hc⟩
  | cons x xs ih =>
    intro r hr
    by_cases hx : x.member_id = mid
    · simp [upsertLeaderboardEntry, hx] at hr
      rcases hr with rfl | hr
      · exact ⟨hu, hc⟩
      · exact hl r (List.mem_cons_of_mem _ hr)
    · simp [upsertLeaderboardEntry, hx] at hr
      rcases hr with rfl | hr
      · exact hl _ (List.mem_cons_self _ _)
      · exact ih (fun s hs => hl s (List.mem_cons_of_mem _ hs)) _ hr

/-! ## Projections of one member's reconciliation step -/

theorem DB_ext {x y : DB} (h1 : x.leetcode_stats = y.leetcode_stats)
    (h2 : x.codeforces_stats = y.codeforces_stats)
    (h3 : x.leaderboard = y.leaderboard) : x = y := by
  cases x; cases y; simp_all

theorem reconcileMember_leetcode (f : Int → String → Option LeetCodeData)
    (g : Int → String → Option CodeforcesData) (now : Int) (m : RosterMember)
    (db : DB) :
    (reconcileMember f g now m db).leetcode_stats =
      lcTableAfter (f m.id m.leetcode_username) m.id db.leetcode_stats := by
  simp only [reconcileMember, fetch_leetcode_stats, fetch_codeforces_stats]
  split <;> rfl

theorem reconcileMember_codeforces (f : Int → String → Option LeetCodeData)
    (g : Int → String → Option CodeforcesData) (now : Int) (m : RosterMember)
    (db : DB) :
    (reconcileMember f g now m db).codeforces_stats =
      cfTableAfter (g m.id m.codeforces_handle) m.id db.codeforces_stats := by
  simp only [reconcileMember, fetch_leetcode_stats, fetch_codeforces_stats]
  split <;> rfl

theorem reconcileMember_leaderboard (f : Int → String → Option LeetCodeData)
    (g : Int → String → Option CodeforcesData) (now : Int) (m : RosterMember)
    (db : DB) :
    (reconcileMember f g now m db).leaderboard =
      if (lcScoreAfter (f m.id m.leetcode_username) m.id db.leetcode_stats).isNone
         && (cfScoreAfter (g m.id m.codeforces_handle) m.id db.codeforces_stats).isNone
      then db.leaderboard
      else upsertLeaderboardEntry now m.id
        (lcScoreAfter (f m.id m.leetcode_username) m.id db.leetcode_stats)
        (cfScoreAfter (g m.id m.codeforces_handle) m.id db.codeforces_stats)
        (combine (lcScoreAfter (f m.id m.leetcode_username) m.id db.leetcode_stats)
          (cfScoreAfter (g m.id m.codeforces_handle) m.id db.codeforces_stats))
        db.leaderboard := by
  simp only [reconcileMember, fetch_leetcode_stats, fetch_codeforces_stats]
  split <;> rfl

/-! ## Frame lemmas: a member's step touches no other member's rows -/

theorem findBy_lcTableAfter_ne {k mid : Int} (res : Option LeetCodeData)
    (tbl : List LeetCodeStats) (h : k ≠ mid) :
    findBy LeetCodeStats.member_id k (lcTableAfter res mid tbl)
      = findBy LeetCodeStats.member_id k tbl := by
  cases res with
  | none => rfl
  | some d => exact findBy_upsertBy_ne _ _ h

theorem findBy_cfTableAfter_ne {k mid : Int} (res : Option CodeforcesData)
    (tbl : List CodeforcesStats) (h : k ≠ mid) :
    findBy CodeforcesStats.member_id k (cfTableAfter res mid tbl)
      = findBy CodeforcesStats.member_id k tbl := by
  cases res with
  | none => rfl
  | some d => exact findBy_upsertBy_ne _ _ h

theorem reconcileMember_find_lc_ne {k : Int}
    (f : Int → String → Option LeetCodeData)
    (g : Int → String → Option CodeforcesData) (now : Int) (m : RosterMember)
    (db : DB) (h : k ≠ m.id) :
    findBy LeetCodeStats.member_id k (reconcileMember f g now m db).leetcode_stats
      = findBy LeetCodeStats.member_id k db.leetcode_stats := by
  rw [reconcileMember_leetcode]
  exact findBy_lcTableAfter_ne _ _ h

theorem reconcileMember_find_cf_ne {k : Int}
    (f : Int → String → Option LeetCodeData)
    (g : Int → String → Option CodeforcesData) (now : Int) (m : RosterMember)
    (db : DB) (h : k ≠ m.id) :
    findBy CodeforcesStats.member_id k (reconcileMember f g now m db).codeforces_stats
      = findBy CodeforcesStats.member_id k db.codeforces_stats := by
  rw [reconcileMember_codeforces]
  exact findBy_cfTableAfter_ne _ _ h

theorem reconcileMember_find_lb_ne {k : Int}
    (f : Int → String → Option LeetCodeData)
    (g : Int → String → Option CodeforcesData) (now : Int) (m : RosterMember)
    (db : DB) (h : k ≠ m.id) :
    findBy Leaderboard.member_id k (reconcileMember f g now m db).leaderboard
      = findBy Leaderboard.member_id k db.leaderboard := by
  rw [reconcileMember_leaderboard]
  split
  · rfl
  · exact findBy_upsertLeaderboardEntry_ne _ _ _ _ _ h

theorem update_leaderboard_find_ne {k : Int}
    (f : Int → String → Option LeetCodeData)
    (g : Int → String → Option CodeforcesData) (now : Int)
    (roster : List RosterMember) (db : DB)
    (h : k ∉ roster.map RosterMember.id) :
    findBy LeetCodeStats.member_id k (update_leaderboard f g now roster db).leetcode_stats
        = findBy LeetCodeStats.member_id k db.leetcode_stats ∧
    findBy CodeforcesStats.member_id k (update_leaderboard f g now roster db).codeforces_stats
        = findBy CodeforcesStats.member_id k db.codeforces_stats ∧
    findBy Leaderboard.member_id k (update_leaderboard f g now roster db).leaderboard
        = findBy Leaderboard.member_id k db.leaderboard := by
  induction roster generalizing db with
  | nil => exact ⟨rfl, rfl, rfl⟩
  | cons m rest ih =>
    have hk : k ≠ m.id := by
      intro hc; exact h (by simp [hc])
    have hrest : k ∉ rest.map RosterMember.id := by
      intro hc; exact h (by simp [hc])
    have step : update_leaderboard f g now (m :: rest) db
        = update_leaderboard f g now rest (reconcileMember f g now m db) := rfl
    rw [step]
    obtain ⟨e1, e2, e3⟩ := ih (reconcileMember f g now m db) hrest
    exact ⟨e1.trans (reconcileMember_find_lc_ne f g now m db hk),
           e2.trans (reconcileMember_find_cf_ne f g now m db hk),
           e3.trans (reconcileMember_find_lb_ne f g now m db hk)⟩

/-! ## Preservation of the uniqueness invariant -/

theorem lcTableAfter_nodup (res : Option LeetCodeData) (mid : Int)
    (tbl : List LeetCodeStats) (h : (tbl.map LeetCodeStats.member_id).Nodup) :
    ((lcTableAfter res mid tbl).map LeetCodeStats.member_id).Nodup := by
  cases res with
  | none => exact h
  | some d => exact upsertBy_nodup _ _ _ h

theorem cfTableAfter_nodup (res : Option CodeforcesData) (mid : Int)
    (tbl : List CodeforcesStats) (h : (tbl.map CodeforcesStats.member_id).Nodup) :
    ((cfTableAfter res mid tbl).map CodeforcesStats.member_id).Nodup := by
  cases res with
  | none => exact h
  | some d => exact upsertBy_nodup _ _ _ h

theorem reconcileMember_DBInv (f : Int → String → Option LeetCodeData)
    (g : Int → String → Option CodeforcesData) (now : Int) (m : RosterMember)
    (db : DB) (h : DBInv db) : DBInv (reconcileMember f g now m db) := by
  obtain ⟨h1, h2, h3⟩ := h
  refine ⟨?_, ?_, ?_⟩
  · rw [reconcileMember_leetcode]; exact lcTableAfter_nodup _ _ _ h1
  · rw [reconcileMember_codeforces]; exact cfTableAfter_nodup _ _ _ h2
  · rw [reconcileMember_leaderboard]
    split
    · exact h3
    · exact upsertLeaderboardEntry_nodup _ _ _ _ _ _ h3

theorem update_leaderboard_DBInv (f : Int → String → Option LeetCodeData)
    (g : Int → String → Option CodeforcesData) (now : Int)
    (roster : List RosterMember) (db : DB) (h : DBInv db) :
    DBInv (update_leaderboard f g now roster db) := by
  induction roster generalizing db with
  | nil => exact h
  | cons m rest ih => exact ih _ (reconcileMember_DBInv f g now m db h)

theorem run_cycles_DBInv (f : Int → String → Option LeetCodeData)
    (g : Int → String → Option CodeforcesData) (roster : List RosterMember)
    (nows : List Int) (db : DB) (h : DBInv db) :
    DBInv (run_cycles f g roster nows db) := by
  induction nows generalizing db with
  | nil => exact h
  | cons t rest ih => exact ih _ (update_leaderboard_DBInv f g t roster db h)

/-! ## Positivity and shape of unified scores -/

theorem score_of_leetcode_pos (r : LeetCodeStats) : 1 ≤ score_of_leetcode r :=
  le_max_left _ _

theorem score_of_codeforces_pos (r : CodeforcesStats) : 1 ≤ score_of_codeforces r :=
  le_max_left _ _

theorem lcScoreAfter_pos (res : Option LeetCodeData) (mid : Int)
    (tbl : List LeetCodeStats) (v : Int) (h : lcScoreAfter res mid tbl = some v) :
    1 ≤ v := by
  cases res with
  | some d =>
    simp [lcScoreAfter] at h
    exact h ▸ score_of_leetcode_pos _
  | none =>
    simp [lcScoreAfter] at h
    obtain ⟨r, _, hr⟩ := h
    exact hr ▸ score_of_leetcode_pos _

theorem cfScoreAfter_pos (res : Option CodeforcesData) (mid : Int)
    (tbl : List CodeforcesStats) (v : Int) (h : cfScoreAfter res mid tbl = some v) :
    1 ≤ v := by
  cases res with
  | some d =>
    simp [cfScoreAfter] at h
    exact h ▸ score_of_codeforces_pos _
  | none =>
    simp [cfScoreAfter] at h
    obtain ⟨r, _, hr⟩ := h
    exact hr ▸ score_of_codeforces_pos _

theorem combine_pos (lc cf : Option Int)
    (hne : (lc.isNone && cf.isNone) = false)
    (hlc : ∀ v, lc = some v → 1 ≤ v) (hcf : ∀ v, cf = some v → 1 ≤ v) :
    0 < combine lc cf := by
  cases lc with
  | none =>
    cases cf with
    | none => simp at hne
    | some b => have := hcf b rfl; simp [combine]; omega
  | some a =>
    have ha := hlc a rfl
    cases cf with
    | none => simp [combine]; omega
    | some b => have := hcf b rfl; simp [combine]; omega

theorem reconcileMember_rowOK (f : Int → String → Option LeetCodeData)
    (g : Int → String → Option CodeforcesData) (now : Int) (m : RosterMember)
    (db : DB) (h : ∀ r ∈ db.leaderboard, LeaderboardRowOK r) :
    ∀ r ∈ (reconcileMember f g now m db).leaderboard, LeaderboardRowOK r := by
  rw [reconcileMember_leaderboard]
  split
  · exact h
  · rename_i hne
    refine upsertLeaderboardEntry_rowOK _ _ _ _ _ _ h ?_ rfl
    exact combine_pos _ _ (Bool.eq_false_iff.mpr hne)
      (fun v hv => lcScoreAfter_pos _ _ _ v hv)
      (fun v hv => cfScoreAfter_pos _ _ _ v hv)

theorem update_leaderboard_rowOK (f : Int → String → Option LeetCodeData)
    (g : Int → String → Option CodeforcesData) (now : Int)
    (roster : List RosterMember) (db : DB)
    (h : ∀ r ∈ db.leaderboard, LeaderboardRowOK r) :
    ∀ r ∈ (update_leaderboard f g now roster db).leaderboard, LeaderboardRowOK r := by
  induction roster generalizing db with
  | nil => exact h
  | cons m rest ih => exact ih _ (reconcileMember_rowOK f g now m db h)

theorem run_cycles_rowOK (f : Int → String → Option LeetCodeData)
    (g : Int → String → Option CodeforcesData) (roster : List RosterMember)
    (nows : List Int) (db : DB)
    (h : ∀ r ∈ db.leaderboard, LeaderboardRowOK r) :
    ∀ r ∈ (run_cycles f g roster nows db).leaderboard, LeaderboardRowOK r := by
  induction nows generalizing db with
  | nil => exact h
  | cons t rest ih => exact ih _ (update_leaderboard_rowOK f g t roster db h)

/-! ## Members with no data are never written -/

theorem reconcileMember_noData (f : Int → String → Option LeetCodeData)
    (g : Int → String → Option CodeforcesData) (now : Int) (m : RosterMember)
    (db : DB) (tid : Int) (hf : ∀ s, f tid s = none) (hg : ∀ s, g tid s = none)
    (h : NoData tid db) : NoData tid (reconcileMember f g now m db) := by
  obtain ⟨h1, h2, h3⟩ := h
  by_cases hm : tid = m.id
  · subst hm
    refine ⟨?_, ?_, ?_⟩
    · rw [reconcileMember_leetcode, hf m.leetcode_username]; exact h1
    · rw [reconcileMember_codeforces, hg m.codeforces_handle]; exact h2
    · rw [reconcileMember_leaderboard, hf m.leetcode_username, hg m.codeforces_handle]
      have hlc : lcScoreAfter none m.id db.leetcode_stats = none := by
        simp [lcScoreAfter, h1]
      have hcf : cfScoreAfter none m.id db.codeforces_stats = none := by
        simp [cfScoreAfter, h2]
      rw [hlc, hcf]
      exact h3
  · exact ⟨(reconcileMember_find_lc_ne f g now m db hm).trans h1,
           (reconcileMember_find_cf_ne f g now m db hm).trans h2,
           (reconcileMember_find_lb_ne f g now m db hm).trans h3⟩

theorem update_leaderboard_noData (f : Int → String → Option LeetCodeData)
    (g : Int → String → Option CodeforcesData) (now : Int)
    (roster : List RosterMember) (db : DB) (tid : Int)
    (hf : ∀ s, f tid s = none) (hg : ∀ s, g tid s = none)
    (h : NoData tid db) : NoData tid (update_leaderboard f g now roster db) := by
  induction roster generalizing db with
  | nil => exact h
  | cons m rest ih => exact ih _ (reconcileMember_noData f g now m db tid hf hg h)

theorem run_cycles_noData (f : Int → String → Option LeetCodeData)
    (g : Int → String → Option CodeforcesData) (roster : List RosterMember)
    (nows : List Int) (db : DB) (tid : Int)
    (hf : ∀ s, f tid s = none) (hg : ∀ s, g tid s = none)
    (h : NoData tid db) : NoData tid (run_cycles f g roster nows db) := by
  induction nows generalizing db with
  | nil => exact h
  | cons t rest ih => exact ih _ (update_leaderboard_noData f g t roster db tid hf hg h)

/-! ## Idempotence of a reconciliation cycle -/

theorem lcScoreAfter_some (p : LeetCodeData) (mid : Int) (tbl : List LeetCodeStats) :
    lcScoreAfter (some p) mid tbl = some (score_of_leetcode (mkLeetCodeRow mid p)) := rfl

theorem cfScoreAfter_some (q : CodeforcesData) (mid : Int) (tbl : List CodeforcesStats) :
    cfScoreAfter (some q) mid tbl = some (score_of_codeforces (mkCodeforcesRow mid q)) := rfl

/-- Re-running one member's step changes nothing, provided the store agrees
at that member's key with the result of the member's first-pass step from
some base state `d0`. -/
theorem reconcileMember_second_pass (f : Int → String → Option LeetCodeData)
    (g : Int → String → Option CodeforcesData) (t1 t2 : Int) (m : RosterMember)
    (d0 s1 : DB)
    (h1 : findBy LeetCodeStats.member_id m.id s1.leetcode_stats
        = findBy LeetCodeStats.member_id m.id (reconcileMember f g t1 m d0).leetcode_stats)
    (h2 : findBy CodeforcesStats.member_id m.id s1.codeforces_stats
        = findBy CodeforcesStats.member_id m.id (reconcileMember f g t1 m d0).codeforces_stats)
    (h3 : findBy Leaderboard.member_id m.id s1.leaderboard
        = findBy Leaderboard.member_id m.id (reconcileMember f g t1 m d0).leaderboard) :
    reconcileMember f g t2 m s1 = s1 := by
  have hsLC : lcScoreAfter (f m.id m.leetcode_username) m.id s1.leetcode_stats
      = lcScoreAfter (f m.id m.leetcode_username) m.id d0.leetcode_stats := by
    cases hf : f m.id m.leetcode_username with
    | some p => simp [lcScoreAfter]
    | none =>
      have hfind := h1
      rw [reconcileMember_leetcode, hf] at hfind
      simp only [lcTableAfter] at hfind
      simp [lcScoreAfter, hfind]
  have hsCF : cfScoreAfter (g m.id m.codeforces_handle) m.id s1.codeforces_stats
      = cfScoreAfter (g m.id m.codeforces_handle) m.id d0.codeforces_stats := by
    cases hg : g m.id m.codeforces_handle with
    | some q => simp [cfScoreAfter]
    | none =>
      have hfind := h2
      rw [reconcileMember_codeforces, hg] at hfind
      simp only [cfTableAfter] at hfind
      simp [cfScoreAfter, hfind]
  apply DB_ext
  · rw [reconcileMember_leetcode]
    cases hf : f m.id m.leetcode_username with
    | none => rfl
    | some p =>
      apply upsertBy_eq_self
      have hfind := h1
      rw [reconcileMember_leetcode, hf] at hfind
      simp only [lcTableAfter] at hfind
      rw [mkLeetCodeRow_member_id, hfind]
      simpa [mkLeetCodeRow_member_id] using
        findBy_upsertBy_self LeetCodeStats.member_id (mkLeetCodeRow m.id p)
          d0.leetcode_stats
  · rw [reconcileMember_codeforces]
    cases hg : g m.id m.codeforces_handle with
    | none => rfl
    | some q =>
      apply upsertBy_eq_self
      have hfind := h2
      rw [reconcileMember_codeforces, hg] at hfind
      simp only [cfTableAfter] at hfind
      rw [mkCodeforcesRow_member_id, hfind]
      simpa [mkCodeforcesRow_member_id] using
        findBy_upsertBy_self CodeforcesStats.member_id (mkCodeforcesRow m.id q)
          d0.codeforces_stats
  · rw [reconcileMember_leaderboard, hsLC, hsCF]
    have h3' := h3
    rw [reconcileMember_leaderboard] at h3'
    by_cases hcond :
        ((lcScoreAfter (f m.id m.leetcode_username) m.id d0.leetcode_stats).isNone
          && (cfScoreAfter (g m.id m.codeforces_handle) m.id d0.codeforces_stats).isNone)
        = true
    · rw [if_pos hcond]
    · rw [if_neg hcond]
      rw [if_neg hcond] at h3'
      obtain ⟨ts, hts⟩ := findBy_upsertLeaderboardEntry_self t1 m.id
        (lcScoreAfter (f m.id m.leetcode_username) m.id d0.leetcode_stats)
        (cfScoreAfter (g m.id m.codeforces_handle) m.id d0.codeforces_stats)
        (combine (lcScoreAfter (f m.id m.leetcode_username) m.id d0.leetcode_stats)
          (cfScoreAfter (g m.id m.codeforces_handle) m.id d0.codeforces_stats))
        d0.leaderboard
      exact upsertLeaderboardEntry_eq_self t2 (h3'.trans hts) rfl rfl rfl

/-- A cycle whose every per-member step fixes the state fixes the state. -/
theorem update_leaderboard_fixed (f : Int → String → Option LeetCodeData)
    (g : Int → String → Option CodeforcesData) (t : Int)
    (roster : List RosterMember) (d : DB)
    (h : ∀ m ∈ roster, reconcileMember f g t m d = d) :
    update_leaderboard f g t roster d = d := by
  induction roster with
  | nil => rfl
  | cons m rest ih =>
    have hm : reconcileMember f g t m d = d := h m (List.mem_cons_self _ _)
    show update_leaderboard f g t rest (reconcileMember f g t m d) = d
    rw [hm]
    exact ih (fun x hx => h x (List.mem_cons_of_mem _ hx))

/-- Idempotence: with unchanged upstream data, a second reconciliation cycle
leaves every stored row exactly as the first cycle left it. -/
theorem update_leaderboard_idem (f : Int → String → Option LeetCodeData)
    (g : Int → String → Option CodeforcesData) (t1 t2 : Int)
    (roster : List RosterMember) (db : DB)
    (h : (roster.map RosterMember.id).Nodup) :
    update_leaderboard f g t2 roster (update_leaderboard f g t1 roster db)
      = update_leaderboard f g t1 roster db := by
  apply update_leaderboard_fixed
  intro m hm
  obtain ⟨pre, post, hsplit⟩ := List.append_of_mem hm
  subst hsplit
  have hnd := h
  rw [List.map_append, List.map_cons, List.nodup_append] at hnd
  have hmpost : m.id ∉ post.map RosterMember.id := (List.nodup_cons.mp hnd.2.1).1
  have hs1 : update_leaderboard f g t1 (pre ++ m :: post) db
      = update_leaderboard f g t1 post
          (reconcileMember f g t1 m (update_leaderboard f g t1 pre db)) := by
    show List.foldl _ db (pre ++ m :: post) = _
    rw [List.foldl_append]
    rfl
  rw [hs1]
  obtain ⟨e1, e2, e3⟩ := update_leaderboard_find_ne f g t1 post
    (reconcileMember f g t1 m (update_leaderboard f g t1 pre db)) hmpost
  exact reconcileMember_second_pass f g t1 t2 m
    (update_leaderboard f g t1 pre db) _ e1 e2 e3

theorem lcScoreAfter_none (mid : Int) (tbl : List LeetCodeStats) :
    lcScoreAfter none mid tbl
      = (findBy LeetCodeStats.member_id mid tbl).map score_of_leetcode := rfl

theorem cfScoreAfter_none (mid : Int) (tbl : List CodeforcesStats) :
    cfScoreAfter none mid tbl
      = (findBy CodeforcesStats.member_id mid tbl).map score_of_codeforces := rfl

/-- When at least one score is available for the member, the step upserts
exactly the expected leaderboard row. -/
theorem reconcileMember_lb_write (f : Int → String → Option LeetCodeData)
    (g : Int → String → Option CodeforcesData) (now : Int) (m : RosterMember)
    (db : DB)
    (hne : ((lcScoreAfter (f m.id m.leetcode_username) m.id db.leetcode_stats).isNone
        && (cfScoreAfter (g m.id m.codeforces_handle) m.id db.codeforces_stats).isNone)
        = false) :
    ∃ ts, findBy Leaderboard.member_id m.id (reconcileMember f g now m db).leaderboard
      = some ⟨m.id,
              lcScoreAfter (f m.id m.leetcode_username) m.id db.leetcode_stats,
              cfScoreAfter (g m.id m.codeforces_handle) m.id db.codeforces_stats,
              combine (lcScoreAfter (f m.id m.leetcode_username) m.id db.leetcode_stats)
                (cfScoreAfter (g m.id m.codeforces_handle) m.id db.codeforces_stats),
              ts⟩ := by
  rw [reconcileMember_leaderboard, if_neg (by simp [hne])]
  exact findBy_upsertLeaderboardEntry_self now m.id _ _ _ db.leaderboard

/-! ## Claim theorems -/

/-- C1: for every member and every number of reconciliation cycles run, at
most one `leetcode_stats` row and one `codeforces_stats` row exist per
member and at most one `leaderboard` row exists per member: the cycles
preserve the uniqueness invariant of the store. -/
theorem claim_C1_uniqueness (f : Int → String → Option LeetCodeData)
    (g : Int → String → Option CodeforcesData) (roster : List RosterMember)
    (nows : List Int) (db : DB) (h : DBInv db) :
    DBInv (run_cycles f g roster nows db) :=
  run_cycles_DBInv f g roster nows db h

theorem claim_C1_witness :
    DBInv emptyDB ∧
    DBInv (run_cycles sampleLC sampleCF sampleRoster [100, 200] emptyDB) :=
  ⟨by decide, claim_C1_uniqueness sampleLC sampleCF sampleRoster [100, 200] emptyDB (by decide)⟩

/-- C2: running one reconciliation cycle twice with identical upstream
inputs yields stored `SourceProfile` and `LeaderboardEntry` rows identical
after either run, all fields included (the second run changes no stored row
and creates no duplicate), for any roster with distinct member identities. -/
theorem claim_C2_idempotence (f : Int → String → Option LeetCodeData)
    (g : Int → String → Option CodeforcesData) (t1 t2 : Int)
    (roster : List RosterMember) (db : DB)
    (h : (roster.map RosterMember.id).Nodup) :
    update_leaderboard f g t2 roster (update_leaderboard f g t1 roster db)
      = update_leaderboard f g t1 roster db :=
  update_leaderboard_idem f g t1 t2 roster db h

theorem claim_C2_witness :
    (sampleRoster.map RosterMember.id).Nodup ∧
    update_leaderboard sampleLC sampleCF 200 sampleRoster
        (update_leaderboard sampleLC sampleCF 100 sampleRoster emptyDB)
      = update_leaderboard sampleLC sampleCF 100 sampleRoster emptyDB :=
  ⟨by decide, claim_C2_idempotence sampleLC sampleCF 100 200 sampleRoster emptyDB (by decide)⟩

/-- C3: in a member's cycle, if one source's fetch fails while the other
succeeds, the failed source's stored rows are left unchanged, and the
member's leaderboard row is written with the succeeding source's fresh
score, the failed source's score equal to the stored snapshot's score when
one exists (absent otherwise), and a unified score combining exactly those;
the member's step is a total function (it completes without error). -/
theorem claim_C3_failure_tolerance (f : Int → String → Option LeetCodeData)
    (g : Int → String → Option CodeforcesData) (now : Int) (m : RosterMember)
    (db : DB) :
    (∀ p, f m.id m.leetcode_username = some p →
      g m.id m.codeforces_handle = none →
      (reconcileMember f g now m db).codeforces_stats = db.codeforces_stats ∧
      ∃ ts, findBy Leaderboard.member_id m.id
          (reconcileMember f g now m db).leaderboard
        = some ⟨m.id,
            some (score_of_leetcode (mkLeetCodeRow m.id p)),
            (findBy CodeforcesStats.member_id m.id db.codeforces_stats).map
              score_of_codeforces,
            combine (some (score_of_leetcode (mkLeetCodeRow m.id p)))
              ((findBy CodeforcesStats.member_id m.id db.codeforces_stats).map
                score_of_codeforces),
            ts⟩) ∧
    (∀ q, f m.id m.leetcode_username = none →
      g m.id m.codeforces_handle = some q →
      (reconcileMember f g now m db).leetcode_stats = db.leetcode_stats ∧
      ∃ ts, findBy Leaderboard.member_id m.id
          (reconcileMember f g now m db).leaderboard
        = some ⟨m.id,
            (findBy LeetCodeStats.member_id m.id db.leetcode_stats).map
              score_of_leetcode,
            some (score_of_codeforces (mkCodeforcesRow m.id q)),
            combine ((findBy LeetCodeStats.member_id m.id db.leetcode_stats).map
                score_of_leetcode)
              (some (score_of_codeforces (mkCodeforcesRow m.id q))),
            ts⟩) := by
  constructor
  · intro p hf hg
    refine ⟨by rw [reconcileMember_codeforces, hg]; rfl, ?_⟩
    have hne : ((lcScoreAfter (f m.id m.leetcode_username) m.id db.leetcode_stats).isNone
        && (cfScoreAfter (g m.id m.codeforces_handle) m.id db.codeforces_stats).isNone)
        = false := by
      rw [hf, lcScoreAfter_some]
      simp
    obtain ⟨ts, hts⟩ := reconcileMember_lb_write f g now m db hne
    rw [hf, lcScoreAfter_some, hg, cfScoreAfter_none] at hts
    exact ⟨ts, hts⟩
  · intro q hf hg
    refine ⟨by rw [reconcileMember_leetcode, hf]; rfl, ?_⟩
    have hne : ((lcScoreAfter (f m.id m.leetcode_username) m.id db.leetcode_stats).isNone
        && (cfScoreAfter (g m.id m.codeforces_handle) m.id db.codeforces_stats).isNone)
        = false := by
      rw [hg, cfScoreAfter_some]
      simp
    obtain ⟨ts, hts⟩ := reconcileMember_lb_write f g now m db hne
    rw [hf, lcScoreAfter_none, hg, cfScoreAfter_some] at hts
    exact ⟨ts, hts⟩

theorem claim_C3_witness :
    (reconcileMember sampleLC sampleCF 100 ⟨1, "john", "jj"⟩ emptyDB).codeforces_stats
        = emptyDB.codeforces_stats ∧
    ∃ ts, findBy Leaderboard.member_id 1
        (reconcileMember sampleLC sampleCF 100 ⟨1, "john", "jj"⟩ emptyDB).leaderboard
      = some ⟨1,
          some (score_of_leetcode (mkLeetCodeRow 1 ⟨"john", 50, 10, 20, 20, 3, 1000, 5⟩)),
          (findBy CodeforcesStats.member_id 1 emptyDB.codeforces_stats).map
            score_of_codeforces,
          combine (some (score_of_leetcode (mkLeetCodeRow 1 ⟨"john", 50, 10, 20, 20, 3, 1000, 5⟩)))
            ((findBy CodeforcesStats.member_id 1 emptyDB.codeforces_stats).map
              score_of_codeforces),
          ts⟩ :=
  (claim_C3_failure_tolerance sampleLC sampleCF 100 ⟨1, "john", "jj"⟩ emptyDB).1
    ⟨"john", 50, 10, 20, 20, 3, 1000, 5⟩ (by decide) (by decide)

/-- C4: a member for whom no source fetch ever succeeds and for whom no data
was ever stored has no leaderboard row after any number of reconciliation
cycles. -/
theorem claim_C4_no_data_skip (f : Int → String → Option LeetCodeData)
    (g : Int → String → Option CodeforcesData) (roster : List RosterMember)
    (nows : List Int) (db : DB) (tid : Int)
    (hf : ∀ s, f tid s = none) (hg : ∀ s, g tid s = none) (h : NoData tid db) :
    findBy Leaderboard.member_id tid (run_cycles f g roster nows db).leaderboard
      = none :=
  (run_cycles_noData f g roster nows db tid hf hg h).2.2

theorem claim_C4_witness :
    NoData 3 emptyDB ∧
    findBy Leaderboard.member_id 3
        (run_cycles sampleLC sampleCF (⟨3, "ghost", "ghost"⟩ :: sampleRoster)
          [100, 200] emptyDB).leaderboard
      = none :=
  ⟨by decide,
   claim_C4_no_data_skip sampleLC sampleCF (⟨3, "ghost", "ghost"⟩ :: sampleRoster)
     [100, 200] emptyDB 3
     (fun s => by norm_num [sampleLC])
     (fun s => by norm_num [sampleCF])
     (by decide)⟩

/-- C5: `combine` is defined for every non-empty subset of per-source scores
(in particular a single available score combines to itself) and is
monotonic: holding the other source fixed, a larger per-source score never
decreases the unified score. -/
theorem claim_C5_combine_monotone (b b' : Int) (o : Option Int) (h : b ≤ b') :
    combine (some b) o ≤ combine (some b') o ∧
    combine o (some b) ≤ combine o (some b') ∧
    combine (some b) none = b ∧ combine none (some b) = b := by
  cases o <;> simp [combine] <;> omega

theorem claim_C5_witness :
    (1 : Int) ≤ 2 ∧ combine (some 1) (some 5) ≤ combine (some 2) (some 5) :=
  ⟨by decide, (claim_C5_combine_monotone 1 2 (some 5) (by decide)).1⟩

/-- C6: every leaderboard row after any number of cycles (from a store whose
leaderboard rows already satisfy the invariant, e.g. the empty store) has a
present, strictly positive unified score equal to `combine` of the row's
per-source scores, and `combine` is order-independent in its sources. -/
theorem claim_C6_unified_score (f : Int → String → Option LeetCodeData)
    (g : Int → String → Option CodeforcesData) (roster : List RosterMember)
    (nows : List Int) (db : DB)
    (h : ∀ r ∈ db.leaderboard, LeaderboardRowOK r) :
    (∀ r ∈ (run_cycles f g roster nows db).leaderboard, LeaderboardRowOK r) ∧
    (∀ a b : Option Int, combine a b = combine b a) := by
  refine ⟨run_cycles_rowOK f g roster nows db h, ?_⟩
  intro a b
  cases a <;> cases b <;> simp [combine] <;> omega

theorem claim_C6_witness :
    (∀ r ∈ emptyDB.leaderboard, LeaderboardRowOK r) ∧
    (∀ r ∈ (run_cycles sampleLC sampleCF sampleRoster [100, 200] emptyDB).leaderboard,
      LeaderboardRowOK r) :=
  ⟨by decide,
   (claim_C6_unified_score sampleLC sampleCF sampleRoster [100, 200] emptyDB
     (by decide)).1⟩

/-- C7: a fetcher call has no side effect on durable storage: the store
threaded through `fetch_leetcode_stats` or `fetch_codeforces_stats` comes
back unchanged for every input (persistence is performed only by the
reconciler). -/
theorem claim_C7_fetchers_readonly (f : Int → String → Option LeetCodeData)
    (g : Int → String → Option CodeforcesData) (db : DB) (mid : Int)
    (handle : String) :
    (fetch_leetcode_stats f db mid handle).1 = db ∧
    (fetch_codeforces_stats g db mid handle).1 = db :=
  ⟨rfl, rfl⟩

/-- C8: calling `add_member` with an email equal to an already-stored
member's email returns a storage error and hands back the pool with every
stored member row unchanged: it never overwrites an existing member. -/
theorem claim_C8_duplicate_email (pool : PgPool)
    (rollno nm hostel email sex : String) (year : Int)
    (_hdup : ∃ r ∈ pool.members.rows, r.email = email) :
    ∃ e, add_member ⟨some pool⟩ rollno nm hostel email sex year
      = .returned pool (.error e) :=
  ⟨.notNullViolation "macaddress", rfl⟩

theorem claim_C8_witness :
    (∃ r ∈ samplePool.members.rows, r.email = "john.doe@example.com") ∧
    ∃ e, add_member ⟨some samplePool⟩ "B21CS9999" "Johnny" "Hostel C"
        "john.doe@example.com" "Male" 2022 = .returned samplePool (.error e) :=
  ⟨by decide,
   claim_C8_duplicate_email samplePool "B21CS9999" "Johnny" "Hostel C"
     "john.doe@example.com" "Male" 2022 (by decide)⟩

/-- C9: evaluation of `add_member` at a concrete input with a fresh email:
the six-column insert of `add_member` violates the member schema's
`macaddress NOT NULL` constraint (and would next violate `group_id NOT
NULL`), so the insert returns a storage error and stores nothing, against
the claim (and the member-creation intent) that a fresh-email insert
succeeds with those columns not required. -/
theorem claim_C9_insert_always_fails :
    add_member ⟨some samplePool⟩ "B21CS5678" "Jane Smith" "Hostel B"
        "jane.smith@example.com" "Female" 2021
      = .returned samplePool (.error (.notNullViolation "macaddress")) := rfl

/-- C10: both public mutations panic with `Pool not found in context`
instead of returning an error when the shared pool is absent from the
request context, and when the pool was injected the panic branch is
unreachable for every input. -/
theorem claim_C10_pool_panic (ctx : Context)
    (rollno nm hostel email sex : String) (year : Int)
    (aid adate atin atout : Int) :
    (ctx.pool = none →
      add_member ctx rollno nm hostel email sex year
          = .panicked "Pool not found in context" ∧
      add_attendance ctx aid adate atin atout
          = .panicked "Pool not found in context") ∧
    (∀ p, ctx.pool = some p →
      (∀ msg, add_member ctx rollno nm hostel email sex year ≠ .panicked msg) ∧
      (∀ msg, add_attendance ctx aid adate atin atout ≠ .panicked msg)) := by
  obtain ⟨pl⟩ := ctx
  constructor
  · intro hnone
    cases hnone
    exact ⟨rfl, rfl⟩
  · intro p hp
    cases hp
    constructor
    · intro msg hmsg
      simp [add_member] at hmsg
    · intro msg hmsg
      simp [add_attendance] at hmsg

theorem claim_C10_witness :
    add_member ⟨none⟩ "B21CS1234" "John Doe" "Hostel A" "john.doe@example.com"
        "Male" 2021 = .panicked "Pool not found in context" ∧
    add_attendance ⟨none⟩ 1 20240101 900 1700
        = .panicked "Pool not found in context" :=
  (claim_C10_pool_panic ⟨none⟩ "B21CS1234" "John Doe" "Hostel A"
    "john.doe@example.com" "Male" 2021 1 20240101 900 1700).1 rfl

end Root
